import Mathlib

/-
Verification development for the MC-Pricer option pricing engine.

The embedding follows the C++ sources:
  * `src/Option.cpp` / `include/Option.h` — option descriptors and payoffs;
  * `src/BlackScholes.cpp` — analytic pricer, Greeks, implied volatility;
  * `src/MonteCarloEngine.cpp` — path simulation, European and American
    (Longstaff-Schwartz) Monte Carlo valuation.

All `double` arithmetic is modelled over `ℝ` (the code computes with
transcendental functions `exp`, `log`, `sqrt`, `erfc`, so a real-valued
shallow embedding is the faithful choice); control flow (loops, early
returns, thrown exceptions) is modelled by structural recursion and
`Except`/`Option` results.  The seeded `std::mt19937`/`std::normal_distribution`
random source is modelled as a stream `g : ℕ → ℝ` of standard-normal draws
(a pure function of the seed) together with the number of draws consumed so
far, which is the generator state.
-/

open scoped Classical

namespace MCPricer

/-- Option kinds, `OptionType` in `include/Option.h`. -/
inductive OptionType where
  | call
  | put
deriving DecidableEq

/-- Error taxonomy of the engine (spec §7): `std::invalid_argument` thrown by
constructors is `invalidParameter`; the two `std::runtime_error`s of
`BlackScholes::impliedVolatility` are `vegaTooSmall` and `convergenceFailure`. -/
inductive PricerError where
  | invalidParameter
  | vegaTooSmall
  | convergenceFailure
deriving DecidableEq

noncomputable section

/-- Payoff of an option, `Option::payoff` in `src/Option.cpp` (identical in the
`EuropeanOption` and `AmericanOption` subclasses): `std::max(spot-strike, 0.0)`
for a call and `std::max(strike-spot, 0.0)` for a put. -/
def payoff (strike : ℝ) (ty : OptionType) (spot : ℝ) : ℝ :=
  match ty with
  | .call => max (spot - strike) 0
  | .put => max (strike - spot) 0

/-! ### BlackScholes (src/BlackScholes.cpp) -/

/-- State of a constructed `BlackScholes` object (`include/BlackScholes.h`):
the five market/contract parameters stored by the constructor. -/
structure BlackScholes where
  S_ : ℝ
  K_ : ℝ
  r_ : ℝ
  T_ : ℝ
  sigma_ : ℝ

/-- Constructor `BlackScholes::BlackScholes` (`src/BlackScholes.cpp` lines 8–13):
stores the five parameters and throws `std::invalid_argument` when
`S <= 0 || K <= 0 || T <= 0 || sigma <= 0`.  The rate `r` is not checked. -/
def mkBlackScholes (S K r T sigma : ℝ) : Except PricerError BlackScholes :=
  if S ≤ 0 ∨ K ≤ 0 ∨ T ≤ 0 ∨ sigma ≤ 0 then .error .invalidParameter
  else .ok ⟨S, K, r, T, sigma⟩

/-- Gauss error function, the quantity the C library's `std::erf` computes:
`erf x = (2/√π) ∫ t in 0..x, exp (-t²)`. -/
def erf (x : ℝ) : ℝ :=
  (2 / Real.sqrt Real.pi) * ∫ t in (0 : ℝ)..x, Real.exp (-t ^ 2)

/-- Complementary error function `std::erfc`: `erfc x = 1 - erf x`. -/
def erfc (x : ℝ) : ℝ := 1 - erf x

/-- Normal CDF, `BlackScholes::normalCDF` (`src/BlackScholes.cpp` lines 15–17):
`0.5 * std::erfc(-x * M_SQRT1_2)` with `M_SQRT1_2 = √(1/2)`. -/
def normalCDF (x : ℝ) : ℝ := 0.5 * erfc (-x * Real.sqrt (1 / 2))

/-- Normal PDF, `BlackScholes::normalPDF` (`src/BlackScholes.cpp` lines 19–21):
`exp(-0.5*x*x) / sqrt(2π)`. -/
def normalPDF (x : ℝ) : ℝ :=
  Real.exp (-0.5 * x * x) / Real.sqrt (2 * Real.pi)

/-- Quantity `d1`, `BlackScholes::d1` (`src/BlackScholes.cpp` lines 23–25). -/
def d1 (S K r T sigma : ℝ) : ℝ :=
  (Real.log (S / K) + (r + 0.5 * sigma * sigma) * T) / (sigma * Real.sqrt T)

/-- Quantity `d2`, `BlackScholes::d2` (`src/BlackScholes.cpp` lines 27–29). -/
def d2 (S K r T sigma : ℝ) : ℝ :=
  d1 S K r T sigma - sigma * Real.sqrt T

/-- Analytic call price, `BlackScholes::callPrice` (`src/BlackScholes.cpp`
lines 31–35): `S*N(d1) - K*exp(-r*T)*N(d2)`. -/
def callPrice (S K r T sigma : ℝ) : ℝ :=
  S * normalCDF (d1 S K r T sigma) - K * Real.exp (-r * T) * normalCDF (d2 S K r T sigma)

/-- Analytic put price, `BlackScholes::putPrice` (`src/BlackScholes.cpp`
lines 37–41): `K*exp(-r*T)*N(-d2) - S*N(-d1)`. -/
def putPrice (S K r T sigma : ℝ) : ℝ :=
  K * Real.exp (-r * T) * normalCDF (-d2 S K r T sigma) - S * normalCDF (-d1 S K r T sigma)

/-- Dispatch on the option kind, `BlackScholes::price` (`src/BlackScholes.cpp`
lines 43–45). -/
def price (ty : OptionType) (S K r T sigma : ℝ) : ℝ :=
  match ty with
  | .call => callPrice S K r T sigma
  | .put => putPrice S K r T sigma

/-- Vega, `BlackScholes::vega` (`src/BlackScholes.cpp` lines 61–64):
`S * normalPDF(d1) * sqrt(T)`. -/
def vega (S K r T sigma : ℝ) : ℝ :=
  S * normalPDF (d1 S K r T sigma) * Real.sqrt T

/-! ### Implied volatility (src/BlackScholes.cpp lines 89–116) -/

/-- Result of `BlackScholes::impliedVolatility`: either the returned volatility,
or one of the two thrown `std::runtime_error`s ("Vega too small…" /
"…did not converge"). -/
inductive IVResult where
  | ok (sigma : ℝ)
  | vegaTooSmall
  | convergenceFailure

/-- Clamp of the Newton iterate into `[0.001, 5.0]`
(`src/BlackScholes.cpp` line 112): `std::max(0.001, std::min(sigma, 5.0))`. -/
def clampSigma (x : ℝ) : ℝ := max 0.001 (min x 5)

/-- One Newton-Raphson update of `impliedVolatility` including the clamp
(`src/BlackScholes.cpp` lines 109–112): `sigma - (price(sigma)-market)/vega(sigma)`,
clamped into `[0.001, 5.0]`. -/
def newtonNext (S K r T marketPrice : ℝ) (ty : OptionType) (sigma : ℝ) : ℝ :=
  clampSigma (sigma - (price ty S K r T sigma - marketPrice) / vega S K r T sigma)

/-- Sequence of Newton iterates of `impliedVolatility` started at `sigma0`
(the loop variable `sigma` before iteration `n`, had the loop run `n` times
with no early exit). -/
def newtonSeq (S K r T marketPrice : ℝ) (ty : OptionType) (sigma0 : ℝ) : ℕ → ℝ
  | 0 => sigma0
  | n + 1 => newtonNext S K r T marketPrice ty (newtonSeq S K r T marketPrice ty sigma0 n)

/-- Loop body of `BlackScholes::impliedVolatility` (`src/BlackScholes.cpp`
lines 95–113) with `k` iterations remaining and current iterate `sigma`:
each iteration first returns `sigma` when `|price - marketPrice| < tolerance`,
then throws "Vega too small" when `vega < 1e-10`, and otherwise continues from
the clamped Newton update; an exhausted budget throws "did not converge". -/
def ivLoop (S K r T marketPrice tolerance : ℝ) (ty : OptionType) : ℕ → ℝ → IVResult
  | 0, _ => .convergenceFailure
  | k + 1, sigma =>
    if |price ty S K r T sigma - marketPrice| < tolerance then .ok sigma
    else if vega S K r T sigma < 1e-10 then .vegaTooSmall
    else ivLoop S K r T marketPrice tolerance ty k (newtonNext S K r T marketPrice ty sigma)

/-- Function `BlackScholes::impliedVolatility` (`src/BlackScholes.cpp`
lines 89–116): Newton-Raphson from the initial guess `sigma = 0.2` with
`maxIterations` iterations. -/
def impliedVolatility (marketPrice S K r T : ℝ) (ty : OptionType)
    (tolerance : ℝ) (maxIterations : ℕ) : IVResult :=
  ivLoop S K r T marketPrice tolerance ty maxIterations 0.2

/-- Predicate: iteration `n` of the implied-volatility search meets the
tolerance, `|price(sigma_n) - marketPrice| < tolerance`
(`src/BlackScholes.cpp` line 100). -/
def hitsTol (S K r T marketPrice tolerance : ℝ) (ty : OptionType) (sigma0 : ℝ) (n : ℕ) : Prop :=
  |price ty S K r T (newtonSeq S K r T marketPrice ty sigma0 n) - marketPrice| < tolerance

/-- Predicate: iteration `n` of the implied-volatility search finds a vega
below the `1e-10` guard (`src/BlackScholes.cpp` line 105). -/
def vegaSmallAt (S K r T marketPrice : ℝ) (ty : OptionType) (sigma0 : ℝ) (n : ℕ) : Prop :=
  vega S K r T (newtonSeq S K r T marketPrice ty sigma0 n) < 1e-10

/-! ### Monte Carlo engine (src/MonteCarloEngine.cpp) -/

/-- European option descriptor (`include/Option.h`): strike, maturity and kind.
Field order matches the `EuropeanOption` constructor arguments. -/
structure EuropeanOption where
  strike : ℝ
  maturity : ℝ
  otype : OptionType

/-- Result structure `MCResult` (`include/MonteCarloEngine.h` lines 12–18). -/
structure MCResult where
  price : ℝ
  standardError : ℝ
  confidence95Lower : ℝ
  confidence95Upper : ℝ
  numSimulations : ℕ

/-- State of a `MonteCarloEngine` (`include/MonteCarloEngine.h` lines 20–27):
the two counts plus the mutable generator state.  The seeded
`std::mt19937`/`std::normal_distribution` pair is modelled as a stream
`g : ℕ → ℝ` of normal draws determined by the seed, so the mutable generator
state reduces to `pos`, the number of draws consumed so far (0 at
construction). -/
structure MonteCarloEngine where
  numSimulations : ℕ
  numSteps : ℕ
  pos : ℕ

/-- Constructor `MonteCarloEngine::MonteCarloEngine` (`src/MonteCarloEngine.cpp`
lines 10–16): throws `std::invalid_argument` when
`numSimulations <= 0 || numSteps <= 0`; the freshly seeded generator has
consumed no draws. -/
def mkMonteCarloEngine (numSimulations numSteps : ℤ) : Except PricerError MonteCarloEngine :=
  if numSimulations ≤ 0 ∨ numSteps ≤ 0 then .error .invalidParameter
  else .ok ⟨numSimulations.toNat, numSteps.toNat, 0⟩

/-- Path recursion of `MonteCarloEngine::generatePath` (`src/MonteCarloEngine.cpp`
lines 26–29) with `k` steps left: `path[i] = path[i-1] * exp(drift + diffusion*z)`
where `z` is the next normal draw `g pos` of the stream. -/
def pathFrom (g : ℕ → ℝ) (drift diffusion : ℝ) : ℕ → ℕ → ℝ → List ℝ
  | _, 0, S => [S]
  | pos, k + 1, S =>
    S :: pathFrom g drift diffusion (pos + 1) k (S * Real.exp (drift + diffusion * g pos))

/-- Function `MonteCarloEngine::generatePath` (`src/MonteCarloEngine.cpp`
lines 18–32), drawing its `M` normals from the stream `g` starting at
position `pos`: `dt = T/M`, `drift = (r - 0.5σ²)dt`, `diffusion = σ√dt`. -/
def generatePath (g : ℕ → ℝ) (M pos : ℕ) (S0 r sigma T : ℝ) : List ℝ :=
  let dt := T / (M : ℝ)
  let drift := (r - 0.5 * sigma * sigma) * dt
  let diffusion := sigma * Real.sqrt dt
  pathFrom g drift diffusion pos M S0

/-- Sampling loop of `MonteCarloEngine::priceEuropean` (`src/MonteCarloEngine.cpp`
lines 38–42): generate `N` paths in order, each consuming `M` draws of the
stream, and record the payoff of each terminal price `path[numSteps_]`.
Returns the payoffs together with the final generator position. -/
def samplePayoffs (g : ℕ → ℝ) (strike : ℝ) (ty : OptionType) (S0 r sigma T : ℝ)
    (M : ℕ) : ℕ → ℕ → List ℝ × ℕ
  | pos, 0 => ([], pos)
  | pos, n + 1 =>
    let term := (generatePath g M pos S0 r sigma T).getD M 0
    let rest := samplePayoffs g strike ty S0 r sigma T M (pos + M) n
    (payoff strike ty term :: rest.1, rest.2)

/-- Statistics tail shared verbatim by `MonteCarloEngine::priceEuropean`
(`src/MonteCarloEngine.cpp` lines 44–67) and `priceAmerican` (lines 164–185):
discounted mean of the sample values, standard error from the
`sumSquared/(numSimulations_-1)` variance, and the `±1.96` standard-error
95% confidence interval. -/
def mcStats (discount : ℝ) (values : List ℝ) (N : ℕ) : MCResult :=
  let sum := values.foldl (· + ·) 0
  let mean := sum / (N : ℝ)
  let price := discount * mean
  let sumSquared := values.foldl (fun acc p => acc + (p - mean) * (p - mean)) 0
  let variance := sumSquared / ((N : ℝ) - 1)
  let standardError := discount * Real.sqrt (variance / (N : ℝ))
  ⟨price, standardError, price - 1.96 * standardError, price + 1.96 * standardError, N⟩

/-- Method `MonteCarloEngine::priceEuropean` (`src/MonteCarloEngine.cpp`
lines 34–68): draw the payoffs, then apply the statistics tail with discount
`exp(-r*T)`.  The member generator (`mutable std::mt19937 generator_`) is
advanced past the consumed draws, not reset, so the returned engine state
carries the new position. -/
def priceEuropean (g : ℕ → ℝ) (opt : EuropeanOption) (S0 r sigma : ℝ)
    (e : MonteCarloEngine) : MCResult × MonteCarloEngine :=
  let run := samplePayoffs g opt.strike opt.otype S0 r sigma opt.maturity
    e.numSteps e.pos e.numSimulations
  (mcStats (Real.exp (-r * opt.maturity)) run.1 e.numSimulations,
    ⟨e.numSimulations, e.numSteps, run.2⟩)

/-! ### Longstaff-Schwartz backward step (src/MonteCarloEngine.cpp lines 89–161) -/

/-- In-the-money paths at one backward-induction time step as (spot, cash flow)
pairs: the collection loop of `MonteCarloEngine::priceAmerican`
(`src/MonteCarloEngine.cpp` lines 90–103) keeps every path whose immediate
exercise value `payoff(paths[i][t])` is strictly positive. -/
def itmPairs (strike : ℝ) (ty : OptionType) (spots cash : List ℝ) : List (ℝ × ℝ) :=
  (spots.zip cash).filter fun p => 0 < payoff strike ty p.1

/-- Regressor vector `X` of the in-the-money spots (`src/MonteCarloEngine.cpp`
line 100). -/
def itmX (strike : ℝ) (ty : OptionType) (spots cash : List ℝ) : List ℝ :=
  (itmPairs strike ty spots cash).map fun p => p.1

/-- Regressand vector `Y` of one-step-discounted in-the-money cash flows
(`src/MonteCarloEngine.cpp` line 101): `Y[j] = cashFlows[i] * discount`. -/
def itmY (strike : ℝ) (ty : OptionType) (discount : ℝ) (spots cash : List ℝ) : List ℝ :=
  (itmPairs strike ty spots cash).map fun p => p.2 * discount

/-- Continuation value actually used by the source, `meanY = sum_y / n`
(`src/MonteCarloEngine.cpp` line 126): the sample mean of the discounted
in-the-money cash flows, the same number for every path. -/
def meanItmY (strike : ℝ) (ty : OptionType) (discount : ℝ) (spots cash : List ℝ) : ℝ :=
  (itmY strike ty discount spots cash).sum / ((itmPairs strike ty spots cash).length : ℝ)

/-- One backward-induction step of `MonteCarloEngine::priceAmerican`
(`src/MonteCarloEngine.cpp` lines 89–161) at a fixed time index `t`:
`spots` holds the per-path prices `paths[i][t]`, `cash` the incoming cash
flows, and `discount` the per-step factor `exp(-r*dt)`.  When strictly more
than 10 paths are in the money, the code accumulates the regression moment
sums `sum_x, …, sum_x2y` (with no observable effect) and uses
`continuationValue = meanY` (line 134) for every in-the-money path: such a
path is set to its exercise value when the exercise value exceeds `meanY`
and is otherwise discounted.  With 10 or fewer in-the-money paths, the loop
at lines 143–147 discounts the in-the-money paths; in both cases the final
loop at lines 150–161 discounts every out-of-the-money path. -/
def lsStep (strike : ℝ) (ty : OptionType) (discount : ℝ) (spots cash : List ℝ) : List ℝ :=
  let itm := itmPairs strike ty spots cash
  if 10 < itm.length then
    let meanY := meanItmY strike ty discount spots cash
    (spots.zip cash).map fun p =>
      if 0 < payoff strike ty p.1 then
        if meanY < payoff strike ty p.1 then payoff strike ty p.1 else p.2 * discount
      else p.2 * discount
  else
    (spots.zip cash).map fun p =>
      if 0 < payoff strike ty p.1 then p.2 * discount else p.2 * discount

/-- Modelled from the spec: the fitted prediction of the degree-2 least-squares
regression of the discounted cash flows `ys` on the basis functions
(1, S, S²) of the spots `xs`, evaluated at `s` (spec §4.4 steps 2–3).  The
source computes the moment sums but never solves the normal equations, so
the fitted coefficients — missing from the source — are reconstructed here
by Cramer's rule on the normal equations, faithful to the spec's words. -/
def lsqPredict (xs ys : List ℝ) (s : ℝ) : ℝ :=
  let n : ℝ := xs.length
  let sx := xs.sum
  let sx2 := (xs.map fun x => x ^ 2).sum
  let sx3 := (xs.map fun x => x ^ 3).sum
  let sx4 := (xs.map fun x => x ^ 4).sum
  let sy := ys.sum
  let sxy := ((xs.zip ys).map fun p => p.1 * p.2).sum
  let sx2y := ((xs.zip ys).map fun p => p.1 ^ 2 * p.2).sum
  let det := n * (sx2 * sx4 - sx3 * sx3) - sx * (sx * sx4 - sx3 * sx2)
    + sx2 * (sx * sx3 - sx2 * sx2)
  let da := sy * (sx2 * sx4 - sx3 * sx3) - sx * (sxy * sx4 - sx2y * sx3)
    + sx2 * (sxy * sx3 - sx2 * sx2y)
  let db := n * (sxy * sx4 - sx2y * sx3) - sy * (sx * sx4 - sx3 * sx2)
    + sx2 * (sx * sx2y - sxy * sx2)
  let dc := n * (sx2 * sx2y - sxy * sx3) - sx * (sx * sx2y - sxy * sx2)
    + sy * (sx * sx3 - sx2 * sx2)
  da / det + (db / det) * s + (dc / det) * s ^ 2

/-! ### IEEE-finiteness model of the standard-error computation -/

/-- Variance line `variance = sumSquared / (numSimulations_ - 1)`
(`src/MonteCarloEngine.cpp` lines 56 and 175) in an IEEE-finiteness model:
`none` models the non-finite `double` (NaN/∞) produced when the divisor
`numSimulations_ - 1` is zero. -/
def varianceOfRun? (values : List ℝ) : Option ℝ :=
  let n := values.length
  let mean := values.foldl (· + ·) 0 / (n : ℝ)
  let sumSquared := values.foldl (fun acc p => acc + (p - mean) * (p - mean)) 0
  if ((n : ℝ) - 1) = 0 then none else some (sumSquared / ((n : ℝ) - 1))

/-- Standard-error line `standardError = discount * sqrt(variance / numSimulations_)`
(`src/MonteCarloEngine.cpp` lines 57 and 176) in the IEEE-finiteness model:
non-finite variance propagates (the square root of NaN is NaN). -/
def standardError? (discount : ℝ) (values : List ℝ) : Option ℝ :=
  (varianceOfRun? values).map fun v => discount * Real.sqrt (v / (values.length : ℝ))

/-! ### Spec-side statistics definitions (spec §4.3) -/

/-- Mean of a sample, written from the spec's words ("mean(payoff)"). -/
def sampleMean (xs : List ℝ) : ℝ := xs.sum / (xs.length : ℝ)

/-- Unbiased sample variance, written from the spec's words
("unbiased sample variance"): `∑ (x - mean)² / (N - 1)`. -/
def sampleVariance (xs : List ℝ) : ℝ :=
  ((xs.map fun x => (x - sampleMean xs) ^ 2).sum) / ((xs.length : ℝ) - 1)

/-- Concrete draw stream used to exhibit the effect of the shared generator
state: the first draw is `3/2`, every later draw is `-3/2`. -/
def sampleStream : ℕ → ℝ := fun k => if k = 0 then 3 / 2 else -(3 / 2)

end

end MCPricer

namespace MCPricer

/-! ### Helper lemmas -/

/-- Oddness of the error function, from the integral definition. -/
theorem erf_neg (u : ℝ) : erf (-u) = -erf u := by
  unfold erf
  have h : (∫ t in (0 : ℝ)..(-u), Real.exp (-t ^ 2))
      = -∫ t in (0 : ℝ)..u, Real.exp (-t ^ 2) := by
    rw [intervalIntegral.integral_symm]
    have h2 := intervalIntegral.integral_comp_neg (a := (0 : ℝ)) (b := u)
      (f := fun t => Real.exp (-t ^ 2))
    simp only [neg_neg, neg_zero, neg_sq] at h2 ⊢
    rw [← h2]
  rw [h]; ring

/-- Complementarity of the erfc-based normal CDF: `N(x) + N(-x) = 1`. -/
theorem normalCDF_add_neg (x : ℝ) : normalCDF x + normalCDF (-x) = 1 := by
  have h := erf_neg (x * Real.sqrt (1 / 2))
  simp only [normalCDF, erfc, neg_neg, neg_mul]
  rw [h]; ring

/-- Clamped iterates lie in the interval `[0.001, 5]`. -/
theorem clampSigma_mem (x : ℝ) : 0.001 ≤ clampSigma x ∧ clampSigma x ≤ 5 :=
  ⟨le_max_left _ _, max_le (by norm_num) (min_le_right _ _)⟩

/-- Invariant of the Newton iterate sequence: once the start lies in
`[0.001, 5]`, every iterate does. -/
theorem newtonSeq_mem (S K r T m : ℝ) (ty : OptionType) (sigma0 : ℝ)
    (h0 : 0.001 ≤ sigma0 ∧ sigma0 ≤ 5) :
    ∀ n, 0.001 ≤ newtonSeq S K r T m ty sigma0 n ∧ newtonSeq S K r T m ty sigma0 n ≤ 5 := by
  intro n
  induction n with
  | zero => exact h0
  | succ n _ => exact clampSigma_mem _

/-! ### C6 — put-call parity -/

/-- C6: for strictly positive S, K, T, σ (any rate r) the analytic call and put
prices from the erfc-based normal CDF satisfy exact put-call parity
`call - put = S - K·exp(-r·T)`, hence agree with it within 1e-8. -/
theorem put_call_parity (S K r T sigma : ℝ)
    (hS : 0 < S) (hK : 0 < K) (hT : 0 < T) (hsigma : 0 < sigma) :
    callPrice S K r T sigma - putPrice S K r T sigma = S - K * Real.exp (-r * T) ∧
    |callPrice S K r T sigma - putPrice S K r T sigma - (S - K * Real.exp (-r * T))| < 1e-8 := by
  have h : callPrice S K r T sigma - putPrice S K r T sigma = S - K * Real.exp (-r * T) := by
    unfold callPrice putPrice
    linear_combination S * normalCDF_add_neg (d1 S K r T sigma)
      - K * Real.exp (-r * T) * normalCDF_add_neg (d2 S K r T sigma)
  refine ⟨h, ?_⟩
  rw [h]
  norm_num

/-- Witness for C6 at S = K = T = σ = 1, r = 0. -/
theorem put_call_parity_witness :
    callPrice 1 1 0 1 1 - putPrice 1 1 0 1 1 = 1 - 1 * Real.exp (-0 * 1) ∧
    |callPrice 1 1 0 1 1 - putPrice 1 1 0 1 1 - (1 - 1 * Real.exp (-0 * 1))| < 1e-8 :=
  put_call_parity 1 1 0 1 1 one_pos one_pos one_pos one_pos

/-! ### C7 — constructor validation -/

/-- C7 counterexample: constructing a `BlackScholes` with the strictly negative
rate `-1` succeeds — the constructor does not validate the rate, refuting the
claim that non-positive rates fail with `InvalidParameter`. -/
theorem mkBlackScholes_negative_rate_accepted :
    mkBlackScholes 100 100 (-1) 1 (1 / 5) = .ok ⟨100, 100, -1, 1, 1 / 5⟩ := by
  unfold mkBlackScholes
  rw [if_neg (by norm_num)]

/-- C7 (amended): the constructor validates spot, strike, maturity and
volatility strictly positive and fails with `InvalidParameter` exactly when
one of those four is non-positive; the rate is not validated at all. -/
theorem mkBlackScholes_validation (S K r T sigma : ℝ) :
    (mkBlackScholes S K r T sigma = .error .invalidParameter ↔
      (S ≤ 0 ∨ K ≤ 0 ∨ T ≤ 0 ∨ sigma ≤ 0)) ∧
    (mkBlackScholes S K r T sigma = .ok ⟨S, K, r, T, sigma⟩ ↔
      ¬(S ≤ 0 ∨ K ≤ 0 ∨ T ≤ 0 ∨ sigma ≤ 0)) := by
  unfold mkBlackScholes
  split_ifs with h <;> simp [h]

/-- Witness for C7 (amended): a non-positive volatility is rejected. -/
theorem mkBlackScholes_validation_witness :
    mkBlackScholes 1 1 1 1 (-1) = .error .invalidParameter :=
  (mkBlackScholes_validation 1 1 1 1 (-1)).1.mpr (by norm_num)

/-! ### C8 — Newton iterate bounds -/

/-- C8: the implied-volatility search starts at σ = 0.2, each next iterate is
the clamped Newton update, and every iterate (for every input and every
iteration count) lies in `[0.001, 5]`. -/
theorem newton_iterates_clamped (S K r T m : ℝ) (ty : OptionType) (n : ℕ) :
    newtonSeq S K r T m ty 0.2 0 = 0.2 ∧
    newtonSeq S K r T m ty 0.2 (n + 1) =
      clampSigma (newtonSeq S K r T m ty 0.2 n -
        (price ty S K r T (newtonSeq S K r T m ty 0.2 n) - m) /
          vega S K r T (newtonSeq S K r T m ty 0.2 n)) ∧
    0.001 ≤ newtonSeq S K r T m ty 0.2 n ∧ newtonSeq S K r T m ty 0.2 n ≤ 5 :=
  ⟨rfl, rfl, newtonSeq_mem S K r T m ty 0.2 (by norm_num) n⟩

/-- Witness for C8 at a concrete parameter set and iterate index. -/
theorem newton_iterates_clamped_witness :
    newtonSeq 100 100 (1 / 20) 1 10 .call 0.2 0 = 0.2 ∧
    newtonSeq 100 100 (1 / 20) 1 10 .call 0.2 (3 + 1) =
      clampSigma (newtonSeq 100 100 (1 / 20) 1 10 .call 0.2 3 -
        (price .call 100 100 (1 / 20) 1 (newtonSeq 100 100 (1 / 20) 1 10 .call 0.2 3) - 10) /
          vega 100 100 (1 / 20) 1 (newtonSeq 100 100 (1 / 20) 1 10 .call 0.2 3)) ∧
    0.001 ≤ newtonSeq 100 100 (1 / 20) 1 10 .call 0.2 3 ∧
    newtonSeq 100 100 (1 / 20) 1 10 .call 0.2 3 ≤ 5 :=
  newton_iterates_clamped 100 100 (1 / 20) 1 10 .call 3

/-! ### C10 — constructor calls inside the search cannot fail -/

/-- C10: under the precondition S, K, T > 0, every `BlackScholes` constructed
inside the Newton-Raphson loop succeeds: each iterate is at least 0.001 > 0
(the initial guess is 0.2), so the invalid-parameter branch is unreachable. -/
theorem impliedVolatility_constructor_safe (S K r T m : ℝ) (ty : OptionType)
    (hS : 0 < S) (hK : 0 < K) (hT : 0 < T) (n : ℕ) :
    mkBlackScholes S K r T (newtonSeq S K r T m ty 0.2 n) =
      .ok ⟨S, K, r, T, newtonSeq S K r T m ty 0.2 n⟩ := by
  have hσ := (newtonSeq_mem S K r T m ty 0.2 (by norm_num) n).1
  unfold mkBlackScholes
  rw [if_neg]
  push_neg
  exact ⟨hS, hK, hT, by linarith⟩

/-- Witness for C10 at S = K = 100, r = 1/20, T = 1, market price 10, a call,
iterate 0. -/
theorem impliedVolatility_constructor_safe_witness :
    mkBlackScholes 100 100 (1 / 20) 1 (newtonSeq 100 100 (1 / 20) 1 10 .call 0.2 0) =
      .ok ⟨100, 100, 1 / 20, 1, newtonSeq 100 100 (1 / 20) 1 10 .call 0.2 0⟩ :=
  impliedVolatility_constructor_safe 100 100 (1 / 20) 1 10 .call
    (by norm_num) (by norm_num) (by norm_num) 0

end MCPricer

namespace MCPricer

/-- Shift lemma for the Newton iterate sequence: iterating from the updated
start is the tail of iterating from the original start. -/
theorem newtonSeq_shift (S K r T m : ℝ) (ty : OptionType) (sigma0 : ℝ) :
    ∀ n, newtonSeq S K r T m ty (newtonNext S K r T m ty sigma0) n
      = newtonSeq S K r T m ty sigma0 (n + 1) := by
  intro n
  induction n with
  | zero => rfl
  | succ n ih => simp only [newtonSeq, ih]

/-- Characterization of a successful run of the implied-volatility loop:
it returns `τ` exactly when some iteration within the budget meets the
tolerance, no earlier iteration met it or tripped the vega guard, and `τ`
is that iteration's iterate. -/
theorem ivLoop_eq_ok_iff (S K r T m tol : ℝ) (ty : OptionType) :
    ∀ (k : ℕ) (sigma0 τ : ℝ),
      ivLoop S K r T m tol ty k sigma0 = .ok τ ↔
        ∃ n, n < k ∧ hitsTol S K r T m tol ty sigma0 n ∧
          (∀ j, j < n → ¬hitsTol S K r T m tol ty sigma0 j ∧
            ¬vegaSmallAt S K r T m ty sigma0 j) ∧
          τ = newtonSeq S K r T m ty sigma0 n := by
  intro k
  induction k with
  | zero =>
    intro sigma0 τ
    simp [ivLoop]
  | succ k ih =>
    intro sigma0 τ
    by_cases h1 : |price ty S K r T sigma0 - m| < tol
    · rw [ivLoop, if_pos h1]
      constructor
      · intro he
        have hστ : sigma0 = τ := by
          cases he
          rfl
        exact ⟨0, Nat.succ_pos k, by simpa [hitsTol, newtonSeq] using h1,
          fun j hj => absurd hj (Nat.not_lt_zero j), by simp [newtonSeq, hστ]⟩
      · rintro ⟨n, _, hhit, hpre, hτ⟩
        cases n with
        | zero =>
          simp only [newtonSeq] at hτ
          rw [hτ]
        | succ n =>
          exact absurd (by simpa [hitsTol, newtonSeq] using h1)
            (hpre 0 (Nat.succ_pos n)).1
    · rw [ivLoop, if_neg h1]
      by_cases h2 : vega S K r T sigma0 < 1e-10
      · rw [if_pos h2]
        constructor
        · intro he
          exact absurd he (by simp)
        · rintro ⟨n, _, hhit, hpre, _⟩
          cases n with
          | zero => exact absurd hhit (by simpa [hitsTol, newtonSeq] using h1)
          | succ n =>
            exact absurd (by simpa [vegaSmallAt, newtonSeq] using h2)
              (hpre 0 (Nat.succ_pos n)).2
      · rw [if_neg h2, ih (newtonNext S K r T m ty sigma0) τ]
        constructor
        · rintro ⟨n, hn, hhit, hpre, hτ⟩
          refine ⟨n + 1, Nat.succ_lt_succ hn, ?_, ?_, ?_⟩
          · simpa [hitsTol, newtonSeq_shift] using hhit
          · intro j hj
            cases j with
            | zero =>
              exact ⟨by simpa [hitsTol, newtonSeq] using h1,
                by simpa [vegaSmallAt, newtonSeq] using h2⟩
            | succ j =>
              have hj' := hpre j (Nat.lt_of_succ_lt_succ hj)
              exact ⟨by simpa [hitsTol, newtonSeq_shift] using hj'.1,
                by simpa [vegaSmallAt, newtonSeq_shift] using hj'.2⟩
          · rw [hτ, newtonSeq_shift]
        · rintro ⟨n, hn, hhit, hpre, hτ⟩
          cases n with
          | zero => exact absurd hhit (by simpa [hitsTol, newtonSeq] using h1)
          | succ n =>
            refine ⟨n, Nat.lt_of_succ_lt_succ hn, ?_, ?_, ?_⟩
            · simpa [hitsTol, newtonSeq_shift] using hhit
            · intro j hj
              have hj' := hpre (j + 1) (Nat.succ_lt_succ hj)
              exact ⟨by simpa [hitsTol, newtonSeq_shift] using hj'.1,
                by simpa [vegaSmallAt, newtonSeq_shift] using hj'.2⟩
            · rw [newtonSeq_shift]
              exact hτ

/-- Characterization of the vega-guard failure of the implied-volatility loop:
it throws "Vega too small" exactly when some iteration within the budget
misses the tolerance but finds `vega < 1e-10`, with no earlier stop. -/
theorem ivLoop_eq_vegaTooSmall_iff (S K r T m tol : ℝ) (ty : OptionType) :
    ∀ (k : ℕ) (sigma0 : ℝ),
      ivLoop S K r T m tol ty k sigma0 = .vegaTooSmall ↔
        ∃ n, n < k ∧ ¬hitsTol S K r T m tol ty sigma0 n ∧
          vegaSmallAt S K r T m ty sigma0 n ∧
          (∀ j, j < n → ¬hitsTol S K r T m tol ty sigma0 j ∧
            ¬vegaSmallAt S K r T m ty sigma0 j) := by
  intro k
  induction k with
  | zero =>
    intro sigma0
    simp [ivLoop]
  | succ k ih =>
    intro sigma0
    by_cases h1 : |price ty S K r T sigma0 - m| < tol
    · rw [ivLoop, if_pos h1]
      constructor
      · intro he
        exact absurd he (by simp)
      · rintro ⟨n, _, hmiss, hsv, hpre⟩
        cases n with
        | zero => exact absurd (by simpa [hitsTol, newtonSeq] using h1) hmiss
        | succ n =>
          exact absurd (by simpa [hitsTol, newtonSeq] using h1)
            (hpre 0 (Nat.succ_pos n)).1
    · rw [ivLoop, if_neg h1]
      by_cases h2 : vega S K r T sigma0 < 1e-10
      · rw [if_pos h2]
        constructor
        · intro _
          exact ⟨0, Nat.succ_pos k, by simpa [hitsTol, newtonSeq] using h1,
            by simpa [vegaSmallAt, newtonSeq] using h2,
            fun j hj => absurd hj (Nat.not_lt_zero j)⟩
        · intro _
          rfl
      · rw [if_neg h2, ih (newtonNext S K r T m ty sigma0)]
        constructor
        · rintro ⟨n, hn, hmiss, hsv, hpre⟩
          refine ⟨n + 1, Nat.succ_lt_succ hn, ?_, ?_, ?_⟩
          · simpa [hitsTol, newtonSeq_shift] using hmiss
          · simpa [vegaSmallAt, newtonSeq_shift] using hsv
          · intro j hj
            cases j with
            | zero =>
              exact ⟨by simpa [hitsTol, newtonSeq] using h1,
                by simpa [vegaSmallAt, newtonSeq] using h2⟩
            | succ j =>
              have hj' := hpre j (Nat.lt_of_succ_lt_succ hj)
              exact ⟨by simpa [hitsTol, newtonSeq_shift] using hj'.1,
                by simpa [vegaSmallAt, newtonSeq_shift] using hj'.2⟩
        · rintro ⟨n, hn, hmiss, hsv, hpre⟩
          cases n with
          | zero => exact absurd (by simpa [vegaSmallAt, newtonSeq] using hsv) h2
          | succ n =>
            refine ⟨n, Nat.lt_of_succ_lt_succ hn, ?_, ?_, ?_⟩
            · simpa [hitsTol, newtonSeq_shift] using hmiss
            · simpa [vegaSmallAt, newtonSeq_shift] using hsv
            · intro j hj
              have hj' := hpre (j + 1) (Nat.succ_lt_succ hj)
              exact ⟨by simpa [hitsTol, newtonSeq_shift] using hj'.1,
                by simpa [vegaSmallAt, newtonSeq_shift] using hj'.2⟩

/-- Characterization of iteration-budget exhaustion of the implied-volatility
loop: it throws "did not converge" exactly when no iteration within the
budget meets the tolerance or trips the vega guard. -/
theorem ivLoop_eq_convergenceFailure_iff (S K r T m tol : ℝ) (ty : OptionType) :
    ∀ (k : ℕ) (sigma0 : ℝ),
      ivLoop S K r T m tol ty k sigma0 = .convergenceFailure ↔
        ∀ n, n < k → ¬hitsTol S K r T m tol ty sigma0 n ∧
          ¬vegaSmallAt S K r T m ty sigma0 n := by
  intro k
  induction k with
  | zero =>
    intro sigma0
    simp [ivLoop]
  | succ k ih =>
    intro sigma0
    by_cases h1 : |price ty S K r T sigma0 - m| < tol
    · rw [ivLoop, if_pos h1]
      constructor
      · intro he
        exact absurd he (by simp)
      · intro hall
        exact absurd (by simpa [hitsTol, newtonSeq] using h1)
          (hall 0 (Nat.succ_pos k)).1
    · rw [ivLoop, if_neg h1]
      by_cases h2 : vega S K r T sigma0 < 1e-10
      · rw [if_pos h2]
        constructor
        · intro he
          exact absurd he (by simp)
        · intro hall
          exact absurd (by simpa [vegaSmallAt, newtonSeq] using h2)
            (hall 0 (Nat.succ_pos k)).2
      · rw [if_neg h2, ih (newtonNext S K r T m ty sigma0)]
        constructor
        · intro hall n hn
          cases n with
          | zero =>
            exact ⟨by simpa [hitsTol, newtonSeq] using h1,
              by simpa [vegaSmallAt, newtonSeq] using h2⟩
          | succ n =>
            have hn' := hall n (Nat.lt_of_succ_lt_succ hn)
            exact ⟨by simpa [hitsTol, newtonSeq_shift] using hn'.1,
              by simpa [vegaSmallAt, newtonSeq_shift] using hn'.2⟩
        · intro hall n hn
          have hn' := hall (n + 1) (Nat.succ_lt_succ hn)
          exact ⟨by simpa [hitsTol, newtonSeq_shift] using hn'.1,
            by simpa [vegaSmallAt, newtonSeq_shift] using hn'.2⟩

/-! ### C3 — implied-volatility outcome characterization -/

/-- C3: `impliedVolatility` returns a volatility exactly when some iteration
meets `|price - marketPrice| < tolerance` (with no earlier stop), throws
"Vega too small" exactly when an iteration finds `vega < 1e-10` before
meeting tolerance, and throws "did not converge" exactly when the whole
budget passes with neither; in that last case no estimate is returned. -/
theorem impliedVolatility_outcome (marketPrice S K r T tol : ℝ)
    (ty : OptionType) (maxIterations : ℕ) :
    (∀ τ, impliedVolatility marketPrice S K r T ty tol maxIterations = .ok τ ↔
      ∃ n, n < maxIterations ∧ hitsTol S K r T marketPrice tol ty 0.2 n ∧
        (∀ j, j < n → ¬hitsTol S K r T marketPrice tol ty 0.2 j ∧
          ¬vegaSmallAt S K r T marketPrice ty 0.2 j) ∧
        τ = newtonSeq S K r T marketPrice ty 0.2 n) ∧
    (impliedVolatility marketPrice S K r T ty tol maxIterations = .vegaTooSmall ↔
      ∃ n, n < maxIterations ∧ ¬hitsTol S K r T marketPrice tol ty 0.2 n ∧
        vegaSmallAt S K r T marketPrice ty 0.2 n ∧
        (∀ j, j < n → ¬hitsTol S K r T marketPrice tol ty 0.2 j ∧
          ¬vegaSmallAt S K r T marketPrice ty 0.2 j)) ∧
    (impliedVolatility marketPrice S K r T ty tol maxIterations = .convergenceFailure ↔
      ∀ n, n < maxIterations → ¬hitsTol S K r T marketPrice tol ty 0.2 n ∧
        ¬vegaSmallAt S K r T marketPrice ty 0.2 n) :=
  ⟨fun τ => ivLoop_eq_ok_iff S K r T marketPrice tol ty maxIterations 0.2 τ,
    ivLoop_eq_vegaTooSmall_iff S K r T marketPrice tol ty maxIterations 0.2,
    ivLoop_eq_convergenceFailure_iff S K r T marketPrice tol ty maxIterations 0.2⟩

/-- Witness for C3: with a zero iteration budget the loop reports
non-convergence (and returns no estimate). -/
theorem impliedVolatility_outcome_witness :
    impliedVolatility 0 1 1 0 1 .call 1 0 = .convergenceFailure :=
  (impliedVolatility_outcome 0 1 1 0 1 1 .call 0).2.2.mpr
    (fun n hn => absurd hn (Nat.not_lt_zero n))

end MCPricer

namespace MCPricer

/-! ### Helper lemmas for the Longstaff-Schwartz step -/

/-- Evaluation form of the call payoff. -/
theorem payoff_call_eval (strike spot : ℝ) :
    payoff strike .call spot = if spot - strike ≤ 0 then 0 else spot - strike := by
  simp [payoff, max_def]

/-- Evaluation form of the put payoff. -/
theorem payoff_put_eval (strike spot : ℝ) :
    payoff strike .put spot = if strike - spot ≤ 0 then 0 else strike - spot := by
  simp [payoff, max_def]

/-- Mapping the second components of a zip of equal-length lists. -/
theorem zip_map_snd {α β γ : Type _} (f : β → γ) :
    ∀ (xs : List α) (ys : List β), xs.length = ys.length →
      (xs.zip ys).map (fun p => f p.2) = ys.map f := by
  intro xs
  induction xs with
  | nil =>
    intro ys h
    cases ys with
    | nil => rfl
    | cons b t => exact absurd h (by simp)
  | cons a xs ih =>
    intro ys h
    cases ys with
    | nil => exact absurd h (by simp)
    | cons b t =>
      simp only [List.zip_cons_cons, List.map_cons]
      rw [ih t (by simpa using h)]

/-! ### C4 — below-threshold and zero-ITM steps -/

/-- C4 counterexample: a step with zero in-the-money paths is not a no-op —
with discount 1/2 (a per-step factor `exp(-r·dt) ≠ 1` whenever `r ≠ 0`) the
single out-of-the-money path's cash flow is halved, not left unchanged. -/
theorem lsStep_zero_itm_not_noop :
    Real.exp (-Real.log 2 * 1) = 1 / 2 ∧
    itmPairs 100 .call [50] [8] = [] ∧
    lsStep 100 .call (1 / 2) [50] [8] = [4] ∧
    lsStep 100 .call (1 / 2) [50] [8] ≠ [8] := by
  refine ⟨?_, ?_⟩
  · rw [neg_mul, mul_one, Real.exp_neg, Real.exp_log (by norm_num : (0:ℝ) < 2)]
    norm_num
  have hitm : itmPairs 100 OptionType.call [50] [8] = [] := by
    norm_num [itmPairs, payoff_call_eval, List.filter_cons]
  refine ⟨hitm, ?_, ?_⟩
  · rw [lsStep]
    rw [hitm]
    norm_num [payoff_call_eval, List.filter_cons]
  · rw [lsStep]
    rw [hitm]
    norm_num [payoff_call_eval, List.filter_cons]

/-- C4 (amended): a backward-induction step whose in-the-money count does not
exceed the threshold 10 — in particular a step with zero in-the-money
paths — fits no regression and multiplies every path's cash flow by the
one-step discount factor (a no-op only when that factor is 1, i.e. r = 0). -/
theorem lsStep_below_threshold (strike : ℝ) (ty : OptionType) (discount : ℝ)
    (spots cash : List ℝ) (hlen : spots.length = cash.length)
    (hitm : (itmPairs strike ty spots cash).length ≤ 10) :
    lsStep strike ty discount spots cash = cash.map (· * discount) := by
  unfold lsStep
  rw [if_neg (not_lt.2 hitm)]
  simp only [ite_self]
  exact zip_map_snd (· * discount) spots cash hlen

/-- Witness for C4 on a single out-of-the-money path. -/
theorem lsStep_below_threshold_witness :
    lsStep 100 .call (1 / 2) [50] [8] = [8].map (· * (1 / 2)) :=
  lsStep_below_threshold 100 .call (1 / 2) [50] [8] rfl
    (by norm_num [itmPairs, payoff_call_eval, List.filter_cons])

end MCPricer

namespace MCPricer

/-! ### C1 — continuation value in the regression branch -/

/-- Spot prices `paths[i][t]` of an 11-path backward-induction step in which
every path of a strike-100 put is in the money. -/
def lsSpotsEx : List ℝ := [60, 80, 81, 82, 83, 84, 85, 86, 87, 88, 89]

/-- Incoming cash flows of the same step, chosen so that the discounted cash
flows lie exactly on the line `Y = 200 - 2·S`. -/
def lsCashEx : List ℝ := [160, 80, 76, 72, 68, 64, 60, 56, 52, 48, 44]

/-- Evaluation of the in-the-money collection on the example step: all eleven
paths are in the money. -/
theorem itmPairs_ex :
    itmPairs 100 .put lsSpotsEx lsCashEx =
      [(60, 160), (80, 80), (81, 76), (82, 72), (83, 68), (84, 64), (85, 60),
        (86, 56), (87, 52), (88, 48), (89, 44)] := by
  norm_num [itmPairs, lsSpotsEx, lsCashEx, payoff_put_eval, List.filter_cons]

/-- Evaluation of the continuation value the code uses on the example step:
the mean `390/11` of the discounted in-the-money cash flows. -/
theorem meanItmY_ex :
    meanItmY 100 .put (1 / 2) lsSpotsEx lsCashEx = 390 / 11 := by
  rw [meanItmY, itmY, itmPairs_ex]
  norm_num

/-- Evaluation of the spec's fitted prediction on the example step: the
regression data lies exactly on `Y = 200 - 2·S`, so the degree-2
least-squares fit predicts `80` at spot `60`. -/
theorem lsqPredict_ex :
    lsqPredict lsSpotsEx
      [80, 40, 38, 36, 34, 32, 30, 28, 26, 24, 22] 60 = 80 := by
  rw [lsqPredict, lsSpotsEx]
  norm_num

/-- C1 counterexample: on the example step the in-the-money count exceeds the
threshold and the regression data is `X = lsSpotsEx`, `Y = [80, 40, …, 22]`;
at the first path the exercise value 40 does not exceed the fitted
prediction 80, so the claim dictates discounting (`160 · 1/2 = 80`), yet the
code locks in the exercise value 40. -/
theorem lsStep_fitted_prediction_counterexample :
    Real.exp (-Real.log 2 * 1) = 1 / 2 ∧
    10 < (itmPairs 100 .put lsSpotsEx lsCashEx).length ∧
    itmX 100 .put lsSpotsEx lsCashEx = lsSpotsEx ∧
    itmY 100 .put (1 / 2) lsSpotsEx lsCashEx =
      [80, 40, 38, 36, 34, 32, 30, 28, 26, 24, 22] ∧
    payoff 100 .put 60 <
      lsqPredict lsSpotsEx [80, 40, 38, 36, 34, 32, 30, 28, 26, 24, 22] 60 ∧
    (lsStep 100 .put (1 / 2) lsSpotsEx lsCashEx).getD 0 0 = payoff 100 .put 60 ∧
    payoff 100 .put 60 ≠ lsCashEx.getD 0 0 * (1 / 2) := by
  have hpay : payoff 100 OptionType.put 60 = 40 := by
    norm_num [payoff_put_eval]
  have hlen : 10 < (itmPairs 100 OptionType.put lsSpotsEx lsCashEx).length := by
    rw [itmPairs_ex]; norm_num
  have hdisc : Real.exp (-Real.log 2 * 1) = 1 / 2 := by
    rw [neg_mul, mul_one, Real.exp_neg, Real.exp_log (by norm_num : (0:ℝ) < 2)]
    norm_num
  refine ⟨hdisc, hlen, ?_, ?_, ?_, ?_, ?_⟩
  · rw [itmX, itmPairs_ex, lsSpotsEx]
    norm_num
  · rw [itmY, itmPairs_ex]
    norm_num
  · rw [hpay, lsqPredict_ex]
    norm_num
  · rw [lsStep, if_pos hlen, meanItmY_ex, hpay, lsSpotsEx, lsCashEx]
    norm_num [payoff_put_eval]
  · rw [hpay, lsCashEx]
    norm_num

/-- C1 (amended): at every backward-induction step whose in-the-money count
exceeds the threshold 10, the continuation value compared against immediate
exercise is the same number for every path — the sample mean of the
discounted in-the-money cash flows (`meanY`), not a per-path fitted
polynomial prediction: a path's cash flow is set to the exercise value
exactly when the exercise value exceeds `meanY`, and is otherwise discounted
by one step. -/
theorem lsStep_regression_branch (strike : ℝ) (ty : OptionType) (discount : ℝ)
    (spots cash : List ℝ)
    (hitm : 10 < (itmPairs strike ty spots cash).length) :
    lsStep strike ty discount spots cash =
      (spots.zip cash).map fun p =>
        if 0 < payoff strike ty p.1 ∧
            meanItmY strike ty discount spots cash < payoff strike ty p.1
        then payoff strike ty p.1
        else p.2 * discount := by
  unfold lsStep
  rw [if_pos hitm]
  simp only [ite_and]

/-- Witness for C1 on the example step. -/
theorem lsStep_regression_branch_witness :
    lsStep 100 .put (1 / 2) lsSpotsEx lsCashEx =
      (lsSpotsEx.zip lsCashEx).map fun p =>
        if 0 < payoff 100 .put p.1 ∧
            meanItmY 100 .put (1 / 2) lsSpotsEx lsCashEx < payoff 100 .put p.1
        then payoff 100 .put p.1
        else p.2 * (1 / 2) :=
  lsStep_regression_branch 100 .put (1 / 2) lsSpotsEx lsCashEx
    (by rw [itmPairs_ex]; norm_num)

end MCPricer

namespace MCPricer

/-! ### Helper lemmas for the Monte Carlo engine -/

/-- Path generation reads only the draws at positions `pos, …, pos+k-1`. -/
theorem pathFrom_congr (g g' : ℕ → ℝ) (drift diffusion : ℝ) :
    ∀ (k pos : ℕ) (S : ℝ), (∀ j, j < k → g (pos + j) = g' (pos + j)) →
      pathFrom g drift diffusion pos k S = pathFrom g' drift diffusion pos k S := by
  intro k
  induction k with
  | zero => intro pos S _; rfl
  | succ k ih =>
    intro pos S h
    have h0 : g pos = g' pos := by simpa using h 0 (Nat.succ_pos k)
    simp only [pathFrom, h0]
    congr 1
    exact ih (pos + 1) _ fun j hj => by
      rw [Nat.add_assoc]
      exact h (1 + j) (by omega)

/-- Whole-path version of the windowing lemma. -/
theorem generatePath_congr (g g' : ℕ → ℝ) (M pos : ℕ) (S0 r sigma T : ℝ)
    (h : ∀ j, j < M → g (pos + j) = g' (pos + j)) :
    generatePath g M pos S0 r sigma T = generatePath g' M pos S0 r sigma T := by
  unfold generatePath
  exact pathFrom_congr g g' _ _ M pos S0 h

/-- The sampling loop consumes exactly `N·M` draws: the final generator
position is `pos + N·M`. -/
theorem samplePayoffs_pos (g : ℕ → ℝ) (strike : ℝ) (ty : OptionType)
    (S0 r sigma T : ℝ) (M : ℕ) :
    ∀ (N pos : ℕ), (samplePayoffs g strike ty S0 r sigma T M pos N).2 = pos + N * M := by
  intro N
  induction N with
  | zero => intro pos; simp [samplePayoffs]
  | succ n ih =>
    intro pos
    simp only [samplePayoffs]
    rw [ih (pos + M)]
    ring

/-- The sampling loop reads only the draws at positions `pos, …, pos+N·M-1`. -/
theorem samplePayoffs_congr (g g' : ℕ → ℝ) (strike : ℝ) (ty : OptionType)
    (S0 r sigma T : ℝ) (M : ℕ) :
    ∀ (N pos : ℕ), (∀ j, j < N * M → g (pos + j) = g' (pos + j)) →
      samplePayoffs g strike ty S0 r sigma T M pos N
        = samplePayoffs g' strike ty S0 r sigma T M pos N := by
  intro N
  induction N with
  | zero => intro pos _; rfl
  | succ n ih =>
    intro pos h
    rw [Nat.succ_mul] at h
    have hpath : generatePath g M pos S0 r sigma T = generatePath g' M pos S0 r sigma T :=
      generatePath_congr g g' M pos S0 r sigma T fun j hj =>
        h j (lt_of_lt_of_le hj (Nat.le_add_left M (n * M)))
    have hrest : samplePayoffs g strike ty S0 r sigma T M (pos + M) n
        = samplePayoffs g' strike ty S0 r sigma T M (pos + M) n :=
      ih (pos + M) fun j hj => by
        rw [Nat.add_assoc]
        have : M + j < n * M + M := by
          calc M + j = j + M := Nat.add_comm M j
          _ < n * M + M := Nat.add_lt_add_right hj M
        exact h (M + j) this
    simp only [samplePayoffs, hpath, hrest]

/-- Left fold of addition over a list is the list sum. -/
theorem foldl_add_eq_sum (xs : List ℝ) : ∀ a, xs.foldl (· + ·) a = a + xs.sum := by
  induction xs with
  | nil => intro a; simp
  | cons x t ih =>
    intro a
    simp only [List.foldl_cons, List.sum_cons, ih (a + x)]
    ring

/-- Left fold of squared deviations over a list is the sum of squares. -/
theorem foldl_sq_eq_sum (c : ℝ) (xs : List ℝ) :
    ∀ a, xs.foldl (fun acc p => acc + (p - c) * (p - c)) a
      = a + ((xs.map fun p => (p - c) ^ 2).sum) := by
  induction xs with
  | nil => intro a; simp
  | cons x t ih =>
    intro a
    simp only [List.foldl_cons, List.map_cons, List.sum_cons, ih (a + (x - c) * (x - c))]
    ring

end MCPricer

namespace MCPricer

/-! ### C2 — reproducibility and the shared generator state -/

/-- C2 (amended): a European valuation is a pure function of the parameters and
of the `numSimulations·numSteps` normal draws starting at the engine's
current generator position — so two engines freshly constructed with the
same seed (same stream, position 0) produce bit-identical `MCResult`s — and
the call advances the shared generator position by exactly
`numSimulations·numSteps` draws, which is what a second call on the same
engine instance resumes from. -/
theorem priceEuropean_window_deterministic (g g' : ℕ → ℝ) (opt : EuropeanOption)
    (S0 r sigma : ℝ) (e : MonteCarloEngine)
    (h : ∀ j, j < e.numSimulations * e.numSteps → g (e.pos + j) = g' (e.pos + j)) :
    priceEuropean g opt S0 r sigma e = priceEuropean g' opt S0 r sigma e ∧
    (priceEuropean g opt S0 r sigma e).2.pos = e.pos + e.numSimulations * e.numSteps := by
  constructor
  · unfold priceEuropean
    rw [samplePayoffs_congr g g' opt.strike opt.otype S0 r sigma opt.maturity
      e.numSteps e.numSimulations e.pos h]
  · unfold priceEuropean
    exact samplePayoffs_pos g opt.strike opt.otype S0 r sigma opt.maturity
      e.numSteps e.numSimulations e.pos

/-- Witness for C2 on a one-path, one-step engine with the concrete stream. -/
theorem priceEuropean_window_deterministic_witness :
    priceEuropean sampleStream ⟨1, 1, .call⟩ 1 0 1 ⟨1, 1, 0⟩
      = priceEuropean sampleStream ⟨1, 1, .call⟩ 1 0 1 ⟨1, 1, 0⟩ ∧
    (priceEuropean sampleStream ⟨1, 1, .call⟩ 1 0 1 ⟨1, 1, 0⟩).2.pos = 0 + 1 * 1 :=
  priceEuropean_window_deterministic sampleStream sampleStream ⟨1, 1, .call⟩ 1 0 1
    ⟨1, 1, 0⟩ fun _ _ => rfl

/-- Evaluation of the first sampled terminal price of the counterexample run:
with `S0 = 1`, `r = 0`, `σ = 1`, `T = 1`, one step, the first draw `3/2`
gives the terminal price `exp(-1/2 + 3/2) = exp 1`. -/
theorem counterexample_terminal_first :
    (generatePath sampleStream 1 0 1 0 1 1).getD 1 0 = Real.exp 1 := by
  simp only [generatePath, pathFrom, sampleStream]
  norm_num [Real.sqrt_one]

/-- Evaluation of the terminal price of the second run, which resumes at
generator position 1: the draw `-3/2` gives `exp(-1/2 - 3/2) = exp (-2)`. -/
theorem counterexample_terminal_second :
    (generatePath sampleStream 1 1 1 0 1 1).getD 1 0 = Real.exp (-2) := by
  simp only [generatePath, pathFrom, sampleStream]
  norm_num [Real.sqrt_one]

/-- C2 counterexample: on the same engine instance (one path, one step,
stream `sampleStream`) two successive `priceEuropean` calls — the C++ member
generator is advanced, never reset, between them — produce different prices
(`exp 1 - 1` from the first draw versus `0` from the second), refuting
bit-identical reproducibility of two successive calls. -/
theorem priceEuropean_second_call_differs :
    (priceEuropean sampleStream ⟨1, 1, .call⟩ 1 0 1 ⟨1, 1, 0⟩).1.price ≠
    (priceEuropean sampleStream ⟨1, 1, .call⟩ 1 0 1
      ((priceEuropean sampleStream ⟨1, 1, .call⟩ 1 0 1 ⟨1, 1, 0⟩).2)).1.price := by
  have hexp1 : (1 : ℝ) < Real.exp 1 := Real.one_lt_exp_iff.mpr one_pos
  have hexp2 : Real.exp (-2) < 1 := Real.exp_lt_one_iff.mpr (by norm_num)
  have hpay1 : payoff 1 .call (Real.exp 1) = Real.exp 1 - 1 := by
    rw [payoff_call_eval, if_neg (by linarith)]
  have hpay2 : payoff 1 .call (Real.exp (-2)) = 0 := by
    rw [payoff_call_eval, if_pos (by linarith)]
  have hrun1 : samplePayoffs sampleStream 1 .call 1 0 1 1 1 0 1
      = ([Real.exp 1 - 1], 1) := by
    simp only [samplePayoffs]
    rw [counterexample_terminal_first, hpay1]
  have hrun2 : samplePayoffs sampleStream 1 .call 1 0 1 1 1 1 1
      = ([0], 2) := by
    simp only [samplePayoffs]
    rw [counterexample_terminal_second, hpay2]
  have hfirst : priceEuropean sampleStream ⟨1, 1, .call⟩ 1 0 1 ⟨1, 1, 0⟩
      = (mcStats (Real.exp (-0 * 1)) [Real.exp 1 - 1] 1, ⟨1, 1, 1⟩) := by
    simp only [priceEuropean]
    rw [hrun1]
  have hsecond : priceEuropean sampleStream ⟨1, 1, .call⟩ 1 0 1 ⟨1, 1, 1⟩
      = (mcStats (Real.exp (-0 * 1)) [0] 1, ⟨1, 1, 2⟩) := by
    simp only [priceEuropean]
    rw [hrun2]
  rw [hfirst]
  simp only
  rw [hsecond]
  simp only [mcStats]
  norm_num [Real.exp_zero]
  linarith

/-! ### C5 — European valuation statistics -/

/-- C5: the result of a European valuation is the statistics tail applied to
the sampled payoffs, and for every discount and payoff sample the tail
computes `price = discount · mean`, `standardError = discount ·
sqrt(unbiased sample variance / N)`, the `±1.96·standardError` confidence
bounds, and consequently `ci95Lower < price < ci95Upper` whenever
`standardError > 0`. -/
theorem priceEuropean_statistics :
    (∀ (g : ℕ → ℝ) (opt : EuropeanOption) (S0 r sigma : ℝ) (e : MonteCarloEngine),
      (priceEuropean g opt S0 r sigma e).1 =
        mcStats (Real.exp (-r * opt.maturity))
          (samplePayoffs g opt.strike opt.otype S0 r sigma opt.maturity
            e.numSteps e.pos e.numSimulations).1 e.numSimulations) ∧
    (∀ (discount : ℝ) (payoffs : List ℝ) (N : ℕ), N = payoffs.length →
      (mcStats discount payoffs N).price = discount * sampleMean payoffs ∧
      (mcStats discount payoffs N).standardError
        = discount * Real.sqrt (sampleVariance payoffs / (N : ℝ)) ∧
      (mcStats discount payoffs N).confidence95Lower
        = (mcStats discount payoffs N).price
          - 1.96 * (mcStats discount payoffs N).standardError ∧
      (mcStats discount payoffs N).confidence95Upper
        = (mcStats discount payoffs N).price
          + 1.96 * (mcStats discount payoffs N).standardError ∧
      (0 < (mcStats discount payoffs N).standardError →
        (mcStats discount payoffs N).confidence95Lower
          < (mcStats discount payoffs N).price ∧
        (mcStats discount payoffs N).price
          < (mcStats discount payoffs N).confidence95Upper)) := by
  constructor
  · intro g opt S0 r sigma e
    rfl
  · intro discount payoffs N hN
    subst hN
    have hsum : payoffs.foldl (· + ·) 0 = payoffs.sum := by
      simpa using foldl_add_eq_sum payoffs 0
    have hsq := foldl_sq_eq_sum (payoffs.sum / (payoffs.length : ℝ)) payoffs 0
    refine ⟨?_, ?_, rfl, rfl, ?_⟩
    · simp only [mcStats, sampleMean, hsum]
    · simp only [mcStats, sampleVariance, sampleMean, hsum]
      rw [hsq]
      norm_num
    · intro h
      simp only [mcStats] at h ⊢
      constructor <;> nlinarith [h]

/-- Witness for C5 on the two-sample payoff list `[0, 2]` with discount 1:
the standard error is 1, and the confidence bounds strictly bracket the
price. -/
theorem priceEuropean_statistics_witness :
    0 < (mcStats 1 [0, 2] 2).standardError ∧
    (mcStats 1 [0, 2] 2).confidence95Lower < (mcStats 1 [0, 2] 2).price ∧
    (mcStats 1 [0, 2] 2).price < (mcStats 1 [0, 2] 2).confidence95Upper := by
  have hse : (mcStats 1 [0, 2] 2).standardError = 1 := by
    simp only [mcStats, List.foldl]
    norm_num [Real.sqrt_eq_one]
  have hpos : 0 < (mcStats 1 [0, 2] 2).standardError := by rw [hse]; norm_num
  have h := (priceEuropean_statistics.2 1 [0, 2] 2 rfl).2.2.2.2 hpos
  exact ⟨hpos, h.1, h.2⟩

/-! ### C9 — single-sample valuation divides by zero -/

/-- C9: the engine constructor rejects exactly the non-positive simulation or
step counts — in particular it accepts `numSimulations = 1` — yet on a
single-sample run the variance divisor `numSimulations - 1` is zero, so the
standard-error computation of both valuation tails yields no finite number
(IEEE division by zero, modelled by `none`). -/
theorem singleSimulation_se_not_finite (M : ℤ) (hM : 0 < M) :
    mkMonteCarloEngine 1 M = .ok ⟨1, M.toNat, 0⟩ ∧
    (∀ n m : ℤ, mkMonteCarloEngine n m = .error .invalidParameter ↔ n ≤ 0 ∨ m ≤ 0) ∧
    (∀ (discount : ℝ) (values : List ℝ), values.length = 1 →
      standardError? discount values = none) := by
  refine ⟨?_, ?_, ?_⟩
  · unfold mkMonteCarloEngine
    rw [if_neg (by omega)]
    rfl
  · intro n m
    unfold mkMonteCarloEngine
    split_ifs with h
    · simp [h]
    · simp [h]
  · intro discount values hlen
    simp only [standardError?, varianceOfRun?, hlen]
    norm_num

/-- Witness for C9: an engine with one simulation and 252 steps is accepted,
and the standard error of a one-sample run is not a finite number. -/
theorem singleSimulation_se_not_finite_witness :
    mkMonteCarloEngine 1 252 = .ok ⟨1, (252 : ℤ).toNat, 0⟩ ∧
    standardError? 1 [5] = none := by
  have h := singleSimulation_se_not_finite 252 (by norm_num)
  exact ⟨h.1, h.2.2 1 [5] rfl⟩

end MCPricer
